import Mathlib

/-!
Verification of the CRC documentation lookup server (src/server.py).

Python strings are modelled as lists of characters (`Str`).  The HTTP layer
and the HTML parser are external collaborators and enter the model as
oracles: an HTTP response either carries an already-parsed document tree,
a non-200 status, or a transport error message.  The process-wide
dictionary cache is modelled as a function from source name to an optional
stored string, threaded explicitly through the query orchestrator.
-/

abbrev Str := List Char

def str (s : String) : Str := s.data

def isWs (c : Char) : Bool := c.isWhitespace

def quoteChar : Char := Char.ofNat 39

/-- Python `s.strip()` restricted to the trailing end. -/
def dropTrail (s : Str) : Str := (s.reverse.dropWhile isWs).reverse

/-- Python `s.strip()`: remove leading and trailing whitespace. -/
def strip (s : Str) : Str := dropTrail (s.dropWhile isWs)

/-- Python `content.split(".")`: split on every dot, keeping empty pieces. -/
def splitDot : Str → List Str
  | [] => [[]]
  | c :: rest =>
    match splitDot rest with
    | [] => [[]]
    | piece :: more => if c = '.' then [] :: piece :: more else (c :: piece) :: more

/-- Helper for Python `s.split()`: the accumulator holds the current word reversed. -/
def splitWsAux : Str → Str → List Str
  | acc, [] => if acc = [] then [] else [acc.reverse]
  | acc, c :: rest =>
    if isWs c then (if acc = [] then splitWsAux [] rest else acc.reverse :: splitWsAux [] rest)
    else splitWsAux (c :: acc) rest

/-- Python `s.split()` with no separator: split on whitespace runs, no empty words. -/
def splitWs (s : Str) : List Str := splitWsAux [] s

/-- Helper for Python `s.count(sub)`: `skip` characters are still part of the last match. -/
def countOccAux (sub : Str) : Nat → Str → Nat
  | _, [] => 0
  | Nat.succ k, _ :: rest => countOccAux sub k rest
  | 0, c :: rest =>
    if sub.isPrefixOf (c :: rest) then 1 + countOccAux sub (sub.length - 1) rest
    else countOccAux sub 0 rest

/-- Python `s.count(sub)`: non-overlapping left-to-right substring count. -/
def countOcc (sub s : Str) : Nat := countOccAux sub 0 s

/-- Python `s.lower()`, character by character. -/
def lower (s : Str) : Str := s.map Char.toLower

/-- Insert one scored sentence behind every entry with an equal or higher score. -/
def insDesc : List (Str × Nat) → (Str × Nat) → List (Str × Nat)
  | [], x => [x]
  | y :: ys, x => if y.2 < x.2 then x :: y :: ys else y :: insDesc ys x

/-- Python `list.sort(key=lambda x: x[1], reverse=True)`: stable descending sort. -/
def sortDesc (l : List (Str × Nat)) : List (Str × Nat) := l.foldl insDesc []

/-- Score of one sentence: summed substring counts of the query terms. -/
def scoreOf (terms : List Str) (t : Str) : Nat :=
  (terms.map (fun term => countOcc term t)).sum

/-- Embedding of `find_relevant_sections` (src/server.py lines 81-97). -/
def find_relevant_sections (content query : Str) : List Str :=
  let sentences :=
    ((splitDot content).filter
      (fun s => !(strip s).isEmpty && decide (20 < (strip s).length))).map strip
  let query_terms := splitWs (lower query)
  let relevant :=
    (sentences.map (fun t => (t, scoreOf query_terms (lower t)))).filter
      (fun p => decide (0 < p.2))
  ((sortDesc relevant).take 5).map Prod.fst

/-- Reference ranking algorithm, written from the words of the specification:
split on the literal dot, drop pieces empty after trimming or of trimmed
length at most 20, score each surviving trimmed piece by summing substring
counts of the lowercased query terms over the lowercased piece, drop score-0
pieces, stable-sort by score descending and return at most the first 5. -/
def rankerSpec (content query : Str) : List Str :=
  let pieces :=
    (splitDot content).filter
      (fun s => decide (¬ (strip s = [] ∨ (strip s).length ≤ 20)))
  let terms := splitWs (lower query)
  let scored := pieces.map (fun s => (strip s, scoreOf terms (lower (strip s))))
  let kept := scored.filter (fun p => decide (p.2 ≠ 0))
  ((sortDesc kept).take 5).map Prod.fst

example : find_relevant_sections
    (str "CRC is great. OpenShift Local runs on a VM here. Containers are isolated.")
    (str "OpenShift Local VM") =
    [str "OpenShift Local runs on a VM here"] := by decide

example : rankerSpec
    (str "CRC is great. OpenShift Local runs on a VM here. Containers are isolated.")
    (str "OpenShift Local VM") =
    [str "OpenShift Local runs on a VM here"] := by decide

/-- C2: for every text body and query string, `find_relevant_sections` returns
exactly the result of the reference ranking algorithm of the specification. -/
theorem find_relevant_sections_eq_rankerSpec (content query : Str) :
    find_relevant_sections content query = rankerSpec content query := by
  simp only [find_relevant_sections, rankerSpec]
  have hfilter :
      (splitDot content).filter
        (fun s => !(strip s).isEmpty && decide (20 < (strip s).length)) =
      (splitDot content).filter
        (fun s => decide (¬ (strip s = [] ∨ (strip s).length ≤ 20))) := by
    apply List.filter_congr
    intro s _
    by_cases h1 : strip s = [] <;> by_cases h2 : 20 < (strip s).length <;>
      simp [h1, h2, List.isEmpty_iff]
  rw [List.map_map, hfilter]
  have hpos :
      ∀ l : List (Str × Nat),
        l.filter (fun p => decide (0 < p.2)) = l.filter (fun p => decide (p.2 ≠ 0)) := by
    intro l
    apply List.filter_congr
    intro p _
    simp [Nat.pos_iff_ne_zero]
  rw [hpos]
  rfl

mutual
/-- A node of the parsed HTML document: a text node, or an element with a
tag name, the list of classes of its class attribute, and its children. -/
inductive Node where
  | text : Str → Node
  | elem : Str → List Str → NodeList → Node

/-- A sequence of sibling nodes; the whole soup is a `NodeList`. -/
inductive NodeList where
  | nil : NodeList
  | cons : Node → NodeList → NodeList
end

/-- The tags removed by `extract_text_content` before any extraction. -/
def bannedTag (t : Str) : Bool :=
  decide (t = str "script" ∨ t = str "style" ∨ t = str "nav" ∨
          t = str "header" ∨ t = str "footer")

mutual
/-- `element.decompose()` applied to every banned-tag element of one node. -/
def pruneN : Node → Option Node
  | .text s => some (.text s)
  | .elem t cls kids => if bannedTag t then none else some (.elem t cls (pruneL kids))

/-- `element.decompose()` applied to every banned-tag element of a node list. -/
def pruneL : NodeList → NodeList
  | .nil => .nil
  | .cons n rest =>
    match pruneN n with
    | none => pruneL rest
    | some m => .cons m (pruneL rest)
end

mutual
/-- First element (document order, elements before their own descendants,
descendants before later siblings) satisfying the predicate, within a node. -/
def findN (p : Str → List Str → Bool) : Node → Option Node
  | .text _ => none
  | .elem t cls kids => if p t cls then some (.elem t cls kids) else findL p kids

/-- BeautifulSoup `soup.find`: first matching element of a node list. -/
def findL (p : Str → List Str → Bool) : NodeList → Option Node
  | .nil => none
  | .cons n rest =>
    match findN p n with
    | some r => some r
    | none => findL p rest
end

mutual
/-- Raw text node contents of one node, in document order. -/
def textsN : Node → List Str
  | .text s => [s]
  | .elem _ _ kids => textsL kids

/-- Raw text node contents of a node list, in document order. -/
def textsL : NodeList → List Str
  | .nil => []
  | .cons n rest => textsN n ++ textsL rest
end

mutual
/-- Text node contents of one node that are not inside any banned-tag element. -/
def outsideN : Node → List Str
  | .text s => [s]
  | .elem t _ kids => if bannedTag t then [] else outsideL kids

/-- Text node contents of a node list outside every banned-tag element. -/
def outsideL : NodeList → List Str
  | .nil => []
  | .cons n rest => outsideN n ++ outsideL rest
end

/-- `soup.find(tag)`. -/
def findTag (tag : Str) (l : NodeList) : Option Node := findL (fun t _ => decide (t = tag)) l

/-- `soup.find("div", class_=cls)`: a div whose class attribute contains `cls`. -/
def findDivClass (cls : Str) (l : NodeList) : Option Node :=
  findL (fun t cs => decide (t = str "div") && cs.contains cls) l

/-- An element of any tag whose class attribute contains `cls`. -/
def findAnyClass (cls : Str) (l : NodeList) : Option Node :=
  findL (fun _ cs => cs.contains cls) l

/-- The content-root cascade of `extract_text_content` (src/server.py 48-55). -/
def selectRoot (doc : NodeList) : NodeList :=
  match findTag (str "main") doc with
  | some n => .cons n .nil
  | none =>
  match findTag (str "article") doc with
  | some n => .cons n .nil
  | none =>
  match findDivClass (str "content") doc with
  | some n => .cons n .nil
  | none =>
  match findDivClass (str "documentation") doc with
  | some n => .cons n .nil
  | none =>
  match findTag (str "body") doc with
  | some n => .cons n .nil
  | none => doc

/-- Join text fragments with single spaces. -/
def joinSp : List Str → Str
  | [] => []
  | [s] => s
  | s :: rest => s ++ ' ' :: joinSp rest

/-- BeautifulSoup `get_text(separator=" ", strip=True)` on a node list:
strip every text fragment, drop the ones that become empty, join with a
single space. -/
def getTextStrip (l : NodeList) : Str :=
  joinSp (((textsL l).map strip).filter (fun f => !f.isEmpty))

/-- Helper for `re.sub(r"\s+", " ", text)`: the flag records whether the
previous character was part of a whitespace run already replaced. -/
def collapseAux : Bool → Str → Str
  | _, [] => []
  | prevWs, c :: rest =>
    if isWs c then (if prevWs then collapseAux true rest else ' ' :: collapseAux true rest)
    else c :: collapseAux false rest

/-- `re.sub(r"\s+", " ", text)`: replace every whitespace run by one space. -/
def collapseWs (s : Str) : Str := collapseAux false s

/-- Embedding of `extract_text_content` (src/server.py lines 39-60): decompose
banned elements, select the content root, extract stripped text joined by
spaces, collapse whitespace runs. -/
def extract_text_content (doc : NodeList) : Str :=
  collapseWs (getTextStrip (selectRoot (pruneL doc)))

example :
    extract_text_content
      (.cons (.elem (str "body") []
        (.cons (.elem (str "script") [] (.cons (.text (str "var x = 1;")) .nil))
        (.cons (.text (str "  hello   world  ")) .nil))) .nil) =
    str "hello world" := by decide

/-- A cascade of finders tried in order; the first match wins. -/
def firstSome : List (NodeList → Option Node) → NodeList → Option Node
  | [], _ => none
  | f :: fs, d =>
    match f d with
    | some n => some n
    | none => firstSome fs d

/-- Root selection as claim C1 words it: first `main`, else first `article`,
else the first element of ANY tag with class `content`, else the first
element of ANY tag with class `documentation`, else the body, else the
whole document. -/
def selectRootClaim (doc : NodeList) : NodeList :=
  match firstSome [findTag (str "main"), findTag (str "article"),
                   findAnyClass (str "content"), findAnyClass (str "documentation"),
                   findTag (str "body")] doc with
  | some n => .cons n .nil
  | none => doc

/-- The extraction pipeline with the claim-worded root cascade. -/
def extractClaim (doc : NodeList) : Str :=
  collapseWs (getTextStrip (selectRootClaim (pruneL doc)))

/-- Root selection of the amended claim: the class-based fallbacks only
match `div` elements, as the source's `soup.find("div", class_=...)` does. -/
def selectRootSpec (doc : NodeList) : NodeList :=
  match firstSome [findTag (str "main"), findTag (str "article"),
                   findDivClass (str "content"), findDivClass (str "documentation"),
                   findTag (str "body")] doc with
  | some n => .cons n .nil
  | none => doc

/-- The extraction pipeline with the amended root cascade. -/
def extractSpec (doc : NodeList) : Str :=
  collapseWs (getTextStrip (selectRootSpec (pruneL doc)))

/-- A document whose only `content`-classed element is a `section`, not a
`div`, with extra text elsewhere in the body. -/
def docC1 : NodeList :=
  .cons (.elem (str "body") []
    (.cons (.elem (str "section") [str "content"]
      (.cons (.text (str "Inside the content section")) .nil))
    (.cons (.text (str "Other body text outside")) .nil))) .nil

/-- C1 counterexample: on `docC1` the source extracts from the whole body,
while the claim's cascade (any element with class `content`) would pick the
section only, so the claim as stated is false. -/
theorem extract_root_cascade_counterexample :
    extract_text_content docC1 ≠ extractClaim docC1 := by decide

/-- The two cascades agree once the class-based steps are restricted to divs. -/
theorem selectRoot_eq_selectRootSpec (d : NodeList) : selectRoot d = selectRootSpec d := by
  unfold selectRoot selectRootSpec
  simp only [firstSome]
  cases h1 : findTag (str "main") d <;> simp only [h1]
  cases h2 : findTag (str "article") d <;> simp only [h2]
  cases h3 : findDivClass (str "content") d <;> simp only [h3]
  cases h4 : findDivClass (str "documentation") d <;> simp only [h4]
  cases h5 : findTag (str "body") d <;> simp only [h5]

/-- C1 amended: for every document, `extract_text_content` equals the
pipeline that selects the root by trying, in order, first `main`, else
first `article`, else first `div` with class `content`, else first `div`
with class `documentation`, else the body, else the whole document — first
match wins — and extracts text from that root only. -/
theorem extract_text_content_eq_extractSpec (doc : NodeList) :
    extract_text_content doc = extractSpec doc := by
  unfold extract_text_content extractSpec
  rw [selectRoot_eq_selectRootSpec]

mutual
/-- Pruning a node keeps exactly the text nodes outside banned elements. -/
theorem textsN_pruneN : ∀ n : Node, (pruneN n).elim [] textsN = outsideN n
  | .text _ => rfl
  | .elem t cls kids => by
    simp only [pruneN, outsideN]
    by_cases h : bannedTag t
    · simp [h]
    · simp [h, textsN, textsL_pruneL kids]

/-- Pruning a node list keeps exactly the text nodes outside banned elements. -/
theorem textsL_pruneL : ∀ l : NodeList, textsL (pruneL l) = outsideL l
  | .nil => rfl
  | .cons n rest => by
    simp only [pruneL, outsideL]
    cases h : pruneN n with
    | none =>
      have hn := textsN_pruneN n
      rw [h] at hn
      simp only [Option.elim] at hn
      simp [← hn, textsL_pruneL rest]
    | some m =>
      have hn := textsN_pruneN n
      rw [h] at hn
      simp only [Option.elim] at hn
      simp [textsL, hn, textsL_pruneL rest]
end

mutual
/-- A node found inside a node contributes a sub-sequence of its texts. -/
theorem findN_texts_sublist :
    ∀ (p : Str → List Str → Bool) (n m : Node),
      findN p n = some m → (textsN m).Sublist (textsN n)
  | _, .text _, _ => by intro h; exact absurd h (by simp [findN])
  | p, .elem t cls kids, m => by
    intro h
    simp only [findN] at h
    by_cases hp : p t cls
    · rw [if_pos hp] at h
      cases h
      exact List.Sublist.refl _
    · rw [if_neg hp] at h
      have := findL_texts_sublist p kids m h
      simpa [textsN] using this

/-- A node found inside a node list contributes a sub-sequence of its texts. -/
theorem findL_texts_sublist :
    ∀ (p : Str → List Str → Bool) (l : NodeList) (m : Node),
      findL p l = some m → (textsN m).Sublist (textsL l)
  | _, .nil, _ => by intro h; exact absurd h (by simp [findL])
  | p, .cons n rest, m => by
    intro h
    simp only [findL] at h
    cases hn : findN p n with
    | some r =>
      rw [hn] at h
      cases h
      exact (findN_texts_sublist p n m hn).trans (List.sublist_append_left _ _)
    | none =>
      rw [hn] at h
      exact (findL_texts_sublist p rest m h).trans (List.sublist_append_right _ _)
end

/-- The selected content root contributes a sub-sequence of the document texts. -/
theorem selectRoot_texts_sublist (d : NodeList) :
    (textsL (selectRoot d)).Sublist (textsL d) := by
  unfold selectRoot
  cases h1 : findTag (str "main") d with
  | some n => simpa [textsL] using findL_texts_sublist _ d n h1
  | none =>
  cases h2 : findTag (str "article") d with
  | some n => simpa [textsL] using findL_texts_sublist _ d n h2
  | none =>
  cases h3 : findDivClass (str "content") d with
  | some n => simpa [textsL] using findL_texts_sublist _ d n h3
  | none =>
  cases h4 : findDivClass (str "documentation") d with
  | some n => simpa [textsL] using findL_texts_sublist _ d n h4
  | none =>
  cases h5 : findTag (str "body") d with
  | some n => simpa [textsL] using findL_texts_sublist _ d n h5
  | none => exact List.Sublist.refl _

/-- C7: the extracted string is assembled exclusively from text fragments
that occur outside every script, style, nav, header and footer element:
no text living only inside those elements can reach the output. -/
theorem extract_text_content_outside_banned (doc : NodeList) :
    ∃ frags : List Str,
      frags.Sublist (outsideL doc) ∧
      extract_text_content doc =
        collapseWs (joinSp ((frags.map strip).filter (fun f => !f.isEmpty))) := by
  refine ⟨textsL (selectRoot (pruneL doc)), ?_, rfl⟩
  rw [← textsL_pruneL doc]
  exact selectRoot_texts_sublist (pruneL doc)

/-- True when the string contains two consecutive whitespace characters. -/
def hasWsRun : Str → Bool
  | c :: d :: rest => (isWs c && isWs d) || hasWsRun (d :: rest)
  | _ => false

/-- True when the string does not start with a whitespace character. -/
def headOk (s : Str) : Bool := s.head?.all (fun c => !isWs c)

/-- True when the string does not end with a whitespace character. -/
def lastOk (s : Str) : Bool := s.getLast?.all (fun c => !isWs c)

/-- True when the string has no leading and no trailing whitespace. -/
def noEdgeWs (s : Str) : Bool := headOk s && lastOk s

theorem headOk_collapseAux_true : ∀ s : Str, headOk (collapseAux true s) = true
  | [] => rfl
  | c :: rest => by
    simp only [collapseAux]
    cases h : isWs c with
    | true => simpa [h] using headOk_collapseAux_true rest
    | false => simp [h, headOk]

theorem hasWsRun_collapseAux : ∀ (s : Str) (b : Bool), hasWsRun (collapseAux b s) = false
  | [], _ => rfl
  | c :: rest, b => by
    simp only [collapseAux]
    cases h : isWs c with
    | true =>
      cases b with
      | true => simpa [h] using hasWsRun_collapseAux rest true
      | false =>
        simp only [h, if_true, Bool.false_eq_true, if_false]
        have hh := headOk_collapseAux_true rest
        have ht := hasWsRun_collapseAux rest true
        cases hl : collapseAux true rest with
        | nil => simp [hasWsRun]
        | cons d r =>
          rw [hl] at hh ht
          simp only [headOk, List.head?_cons, Option.all_some] at hh
          have hd : isWs d = false := by simpa using hh
          simp [hasWsRun, hd, ht]
    | false =>
      have ht := hasWsRun_collapseAux rest false
      cases hl : collapseAux false rest with
      | nil => simp [h, hasWsRun]
      | cons d r =>
        rw [hl] at ht
        simp [h, hasWsRun, ht]

theorem collapseAux_ne_nil :
    ∀ (s : Str) (b : Bool), s ≠ [] → lastOk s = true → collapseAux b s ≠ []
  | [], _, h, _ => absurd rfl h
  | [c], b, _, hl => by
    have hc : isWs c = false := by simpa [lastOk] using hl
    simp [collapseAux, hc]
  | c :: d :: rest, b, _, hl => by
    have h2 : lastOk (d :: rest) = true := by
      simpa [lastOk, List.getLast?_cons_cons] using hl
    simp only [collapseAux]
    cases h : isWs c with
    | true =>
      cases b with
      | true => simpa [h] using collapseAux_ne_nil (d :: rest) true (by simp) h2
      | false => simp [h]
    | false => simp [h]

theorem lastOk_collapseAux :
    ∀ (s : Str) (b : Bool), lastOk s = true → lastOk (collapseAux b s) = true
  | [], _, _ => rfl
  | [c], b, hl => by
    have hc : isWs c = false := by simpa [lastOk] using hl
    simp [collapseAux, hc, lastOk]
  | c :: d :: rest, b, hl => by
    have h2 : lastOk (d :: rest) = true := by
      simpa [lastOk, List.getLast?_cons_cons] using hl
    cases h : isWs c with
    | true =>
      cases b with
      | true =>
        rw [show collapseAux true (c :: d :: rest) = collapseAux true (d :: rest) from by
          simp [collapseAux, h]]
        exact lastOk_collapseAux (d :: rest) true h2
      | false =>
        rw [show collapseAux false (c :: d :: rest) = ' ' :: collapseAux true (d :: rest) from by
          simp [collapseAux, h]]
        have hne := collapseAux_ne_nil (d :: rest) true (by simp) h2
        have hrec := lastOk_collapseAux (d :: rest) true h2
        cases hll : collapseAux true (d :: rest) with
        | nil => exact absurd hll hne
        | cons e r =>
          rw [hll] at hrec
          simpa [lastOk, List.getLast?_cons_cons] using hrec
    | false =>
      rw [show collapseAux b (c :: d :: rest) = c :: collapseAux false (d :: rest) from by
        simp [collapseAux, h]]
      have hrec := lastOk_collapseAux (d :: rest) false h2
      cases hll : collapseAux false (d :: rest) with
      | nil => simp [lastOk, h]
      | cons e r =>
        rw [hll] at hrec
        simpa [lastOk, List.getLast?_cons_cons] using hrec

theorem headOk_collapseAux_false :
    ∀ s : Str, headOk s = true → headOk (collapseAux false s) = true
  | [], _ => rfl
  | c :: rest, h => by
    have hc : isWs c = false := by simpa [headOk] using h
    simp [collapseAux, hc, headOk]

theorem headOk_dropWhile : ∀ s : Str, headOk (s.dropWhile isWs) = true
  | [] => rfl
  | c :: rest => by
    cases h : isWs c with
    | true => simpa [List.dropWhile_cons, h] using headOk_dropWhile rest
    | false => simp [List.dropWhile_cons, h, headOk]

theorem lastOk_dropWhile : ∀ s : Str, lastOk s = true → lastOk (s.dropWhile isWs) = true
  | [], _ => rfl
  | [c], h => by
    cases hc : isWs c with
    | true => simp [List.dropWhile_cons, hc, lastOk]
    | false => simpa [List.dropWhile_cons, hc] using h
  | c :: d :: rest, h => by
    have h2 : lastOk (d :: rest) = true := by
      simpa [lastOk, List.getLast?_cons_cons] using h
    cases hc : isWs c with
    | true => simpa [List.dropWhile_cons, hc] using lastOk_dropWhile (d :: rest) h2
    | false =>
      simpa [List.dropWhile_cons, hc, lastOk, List.getLast?_cons_cons] using h2

theorem lastOk_reverse_eq (s : Str) : lastOk s.reverse = headOk s := by
  simp [lastOk, headOk, List.getLast?_reverse]

theorem headOk_reverse_eq (s : Str) : headOk s.reverse = lastOk s := by
  simp [headOk, lastOk, List.head?_reverse]

theorem headOk_strip (s : Str) : headOk (strip s) = true := by
  unfold strip dropTrail
  rw [headOk_reverse_eq]
  refine lastOk_dropWhile _ ?_
  rw [lastOk_reverse_eq]
  exact headOk_dropWhile s

theorem lastOk_strip (s : Str) : lastOk (strip s) = true := by
  unfold strip dropTrail
  rw [lastOk_reverse_eq]
  exact headOk_dropWhile _

theorem joinSp_ne_nil : ∀ F : List Str, F ≠ [] → (∀ f ∈ F, f ≠ []) → joinSp F ≠ []
  | [], h, _ => absurd rfl h
  | [f], _, hf => by simpa [joinSp] using hf f (by simp)
  | f :: g :: rest, _, hf => by
    simp only [joinSp]
    simp [hf f (by simp)]

theorem headOk_joinSp :
    ∀ F : List Str, (∀ f ∈ F, f ≠ [] ∧ headOk f = true) → headOk (joinSp F) = true
  | [], _ => rfl
  | [f], h => (h f (by simp)).2
  | f :: g :: rest, h => by
    have hf := h f (by simp)
    simp only [joinSp]
    rw [headOk, List.head?_append_of_ne_nil f hf.1]
    exact hf.2

theorem lastOk_joinSp :
    ∀ F : List Str, (∀ f ∈ F, f ≠ [] ∧ lastOk f = true) → lastOk (joinSp F) = true
  | [], _ => rfl
  | [f], h => (h f (by simp)).2
  | f :: g :: rest, h => by
    have hrec := lastOk_joinSp (g :: rest) (fun x hx => h x (List.mem_cons_of_mem f hx))
    have hne : joinSp (g :: rest) ≠ [] :=
      joinSp_ne_nil (g :: rest) (by simp)
        (fun x hx => (h x (List.mem_cons_of_mem f hx)).1)
    simp only [joinSp]
    rw [lastOk, List.getLast?_append_of_ne_nil f (by simp)]
    cases hj : joinSp (g :: rest) with
    | nil => exact absurd hj hne
    | cons e r =>
      rw [hj] at hrec
      simpa [lastOk, List.getLast?_cons_cons] using hrec

theorem noEdgeWs_getTextStrip_collapse (l : NodeList) :
    noEdgeWs (collapseWs (getTextStrip l)) = true := by
  have hfr : ∀ f ∈ ((textsL l).map strip).filter (fun f => !f.isEmpty),
      f ≠ [] ∧ headOk f = true ∧ lastOk f = true := by
    intro f hf
    rw [List.mem_filter] at hf
    obtain ⟨hmem, hne⟩ := hf
    rw [List.mem_map] at hmem
    obtain ⟨x, -, rfl⟩ := hmem
    refine ⟨?_, headOk_strip x, lastOk_strip x⟩
    simpa [List.isEmpty_iff] using hne
  have h1 : headOk (getTextStrip l) = true :=
    headOk_joinSp _ (fun f hf => ⟨(hfr f hf).1, (hfr f hf).2.1⟩)
  have h2 : lastOk (getTextStrip l) = true :=
    lastOk_joinSp _ (fun f hf => ⟨(hfr f hf).1, (hfr f hf).2.2⟩)
  rw [noEdgeWs, Bool.and_eq_true]
  exact ⟨headOk_collapseAux_false _ h1, lastOk_collapseAux _ false h2⟩

/-- C8: the extracted text has no run of two or more consecutive whitespace
characters and no leading or trailing whitespace, for every document. -/
theorem extract_text_content_ws_normalized (doc : NodeList) :
    hasWsRun (extract_text_content doc) = false ∧
    noEdgeWs (extract_text_content doc) = true := by
  constructor
  · exact hasWsRun_collapseAux _ false
  · exact noEdgeWs_getTextStrip_collapse _

/-- Outcome of one HTTP GET as the network oracle reports it: a 200
response whose body the external parser turned into a document tree, a
non-200 status code, or a transport failure with its error message. -/
inductive HttpResult where
  | ok : NodeList → HttpResult
  | status : Nat → HttpResult
  | failed : Str → HttpResult

/-- The source registry `DOC_SOURCES` (src/server.py lines 22-26), in
insertion order. -/
def DOC_SOURCES : List (Str × Str) :=
  [(str "crc", str "https://crc.dev/docs"),
   (str "crc-blog", str "https://crc.dev/blog"),
   (str "crc-dev", str "https://crc.dev/engineering-docs")]

/-- Python `source_name in DOC_SOURCES`. -/
abbrev registered (s : Str) : Prop := s ∈ DOC_SOURCES.map Prod.fst

/-- Python `DOC_SOURCES[source_name]` for a registered name. -/
def urlOf (s : Str) : Str :=
  ((DOC_SOURCES.find? (fun p => decide (p.1 = s))).map Prod.snd).getD []

/-- Decimal rendering of a number, as Python string interpolation does. -/
def natStr (n : Nat) : Str := (Nat.repr n).data

/-- Embedding of `fetch_documentation` (src/server.py lines 62-79).  The
function is total: every branch, the transport failure included, returns a
string.  The second component lists the URLs to which a GET was issued. -/
def fetch_documentation (http : Str → HttpResult) (source_name : Str) : Str × List Str :=
  if ¬ registered source_name then (str "Unknown source: " ++ source_name, [])
  else
    match http (urlOf source_name) with
    | .ok body => (extract_text_content body, [urlOf source_name])
    | .status n =>
      (str "Failed to fetch " ++ urlOf source_name ++ str " (Status: " ++ natStr n ++ str ")",
       [urlOf source_name])
    | .failed e =>
      (str "Error fetching " ++ urlOf source_name ++ str ": " ++ e, [urlOf source_name])

/-- The Source Fetcher contract as the specification words it: for a
registered source the extracted text on status 200, the failed-fetch
message on any other status, the error message on transport failure; for
an unknown source the unknown-source message with no request issued. -/
def fetchSpec (http : Str → HttpResult) (s : Str) : Str × List Str :=
  if registered s then
    match http (urlOf s) with
    | .ok body => (extract_text_content body, [urlOf s])
    | .status n =>
      (str "Failed to fetch " ++ urlOf s ++ str " (Status: " ++ natStr n ++ str ")", [urlOf s])
    | .failed e => (str "Error fetching " ++ urlOf s ++ str ": " ++ e, [urlOf s])
  else (str "Unknown source: " ++ s, [])

/-- C3: `fetch_documentation` never raises (it is a total function) and
returns exactly one of the four contracted strings, issuing no request for
an unknown source. -/
theorem fetch_documentation_eq_fetchSpec (http : Str → HttpResult) (s : Str) :
    fetch_documentation http s = fetchSpec http s := by
  unfold fetch_documentation fetchSpec
  by_cases h : registered s
  · simp [h]
  · simp [h]

/-- The process-wide `doc_cache` dictionary. -/
abbrev Cache := Str → Option Str

/-- Python dict assignment `doc_cache[k] = v`. -/
def updC (c : Cache) (k : Str) (v : Str) : Cache :=
  fun t => if t = k then some v else c t

/-- The per-source loop of `crc_doc_query` (src/server.py lines 122-142):
returns the accumulated results (source name, url, sections), the cache
after the loop, and the names of the sources that were fetched, in order. -/
def processSources (http : Str → HttpResult) (query : Str) :
    List Str → Cache → List (Str × Str × List Str) × Cache × List Str
  | [], c => ([], c, [])
  | s :: rest, c =>
    if registered s then
      match c s with
      | some v =>
        let secs := find_relevant_sections v query
        let r := processSources http query rest c
        ((if secs.isEmpty then [] else [(s, urlOf s, secs)]) ++ r.1, r.2.1, r.2.2)
      | none =>
        let content := (fetch_documentation http s).1
        let secs := find_relevant_sections content query
        let r := processSources http query rest (updC c s content)
        ((if secs.isEmpty then [] else [(s, urlOf s, secs)]) ++ r.1, r.2.1, s :: r.2.2)
    else processSources http query rest c

/-- Python `s.replace("-", " ")`. -/
def replaceDash (s : Str) : Str := s.map (fun c => if c = '-' then ' ' else c)

/-- Helper for Python `s.title()`: the flag records whether the previous
character was alphabetic. -/
def titleAux : Bool → Str → Str
  | _, [] => []
  | prevAlpha, c :: rest =>
    (if c.isAlpha then (if prevAlpha then c.toLower else c.toUpper) else c) ::
      titleAux c.isAlpha rest

/-- Python `s.title()`. -/
def titleCase (s : Str) : Str := titleAux false s

/-- The numbered section list of the response (1-based). -/
def fmtSections : Nat → List Str → Str
  | _, [] => []
  | i, s :: rest =>
    str "**" ++ natStr i ++ str ".** " ++ s ++ str "\n\n" ++ fmtSections (i + 1) rest

/-- One per-source block of the response. -/
def fmtResult (r : Str × Str × List Str) : Str :=
  str "## " ++ titleCase (replaceDash r.1) ++ str "\n" ++
  str "**Source:** " ++ r.2.1 ++ str "\n\n" ++
  fmtSections 1 r.2.2 ++ str "---\n\n"

/-- The response formatting of `crc_doc_query` (src/server.py lines 148-163). -/
def formatResponse (query : Str) (results : List (Str × Str × List Str)) : Str :=
  str "# CRC Documentation Results\n\n**Query:** " ++ query ++ str "\n\n" ++
  (results.map fmtResult).flatten

/-- The no-result reply, with the query between single quotes. -/
def noRelMsg (query : Str) : Str :=
  str "No relevant information found for: " ++ (quoteChar :: query) ++ [quoteChar]

/-- Embedding of the `crc_doc_query` tool (src/server.py lines 103-163):
returns the reply, the cache after the call, and the fetched source names. -/
def crc_doc_query (http : Str → HttpResult) (query : Str) (sources : Option (List Str))
    (c : Cache) : Str × Cache × List Str :=
  if query = [] then (str "Please provide a query.", c, [])
  else
    let srcs := match sources with
      | some l => l
      | none => DOC_SOURCES.map Prod.fst
    let r := processSources http query srcs c
    if r.1.isEmpty then (noRelMsg query, r.2.1, r.2.2)
    else (formatResponse query r.1, r.2.1, r.2.2)

/-- Embedding of the `clear_cache` tool (src/server.py lines 166-175). -/
def clear_cache (_c : Cache) : Str × Cache :=
  (str "Documentation cache cleared. Fresh content will be fetched on next query.",
   fun _ => none)

/-- C6: the empty query short-circuits: the reply is exactly the literal
message, and the cache is untouched with nothing fetched or ranked. -/
theorem crc_doc_query_empty_query (http : Str → HttpResult) (sources : Option (List Str))
    (c : Cache) :
    crc_doc_query http [] sources c = (str "Please provide a query.", c, []) := rfl

/-- After a non-empty query the final cache and fetch log are those of the
per-source loop, whichever way the reply is rendered. -/
theorem crc_state (http : Str → HttpResult) (query : Str) (sources : List Str) (c : Cache)
    (hq : query ≠ []) :
    (crc_doc_query http query (some sources) c).2 = (processSources http query sources c).2 := by
  unfold crc_doc_query
  rw [if_neg hq]
  by_cases h : (processSources http query sources c).1.isEmpty <;> simp [h]

/-- After a non-empty query the reply is the no-result message or the
formatted report, depending on whether the loop accumulated results. -/
theorem crc_reply (http : Str → HttpResult) (query : Str) (sources : List Str) (c : Cache)
    (hq : query ≠ []) :
    (crc_doc_query http query (some sources) c).1 =
      if (processSources http query sources c).1.isEmpty then noRelMsg query
      else formatResponse query (processSources http query sources c).1 := by
  unfold crc_doc_query
  rw [if_neg hq]
  by_cases h : (processSources http query sources c).1.isEmpty <;> simp [h]

/-- C9: `clear_cache` returns exactly the confirmation string, removes
every cache entry, and the next single-source query for any registered
source fetches that source anew. -/
theorem clear_cache_clears (c : Cache) :
    (clear_cache c).1 =
      str "Documentation cache cleared. Fresh content will be fetched on next query." ∧
    (∀ s, (clear_cache c).2 s = none) ∧
    (∀ (http : Str → HttpResult) (query s : Str), registered s → query ≠ [] →
      (crc_doc_query http query (some [s]) (clear_cache c).2).2.2 = [s]) := by
  refine ⟨rfl, fun _ => rfl, ?_⟩
  intro http query s hreg hq
  have h2 := crc_state http query [s] (clear_cache c).2 hq
  rw [show (crc_doc_query http query (some [s]) (clear_cache c).2).2.2 =
      (processSources http query [s] (clear_cache c).2).2.2 from congrArg Prod.snd h2]
  simp [processSources, hreg, clear_cache]

/-- The text a source contributes, as a function of the initial cache: the
cached entry if present, else the fetch result. -/
def contentOf (http : Str → HttpResult) (c : Cache) (s : Str) : Str :=
  (c s).getD (fetch_documentation http s).1

theorem contentOf_updC (http : Str → HttpResult) (c : Cache) (s : Str) (hs : c s = none) :
    ∀ t, contentOf http (updC c s (fetch_documentation http s).1) t = contentOf http c t := by
  intro t
  unfold contentOf updC
  by_cases h : t = s
  · subst h
    simp [hs]
  · simp [h]

/-- The result the loop accumulates for one source, as a function of the
initial cache. -/
def resultFor (http : Str → HttpResult) (query : Str) (c : Cache) (s : Str) :
    Option (Str × Str × List Str) :=
  if registered s then
    if (find_relevant_sections (contentOf http c s) query).isEmpty then none
    else some (s, urlOf s, find_relevant_sections (contentOf http c s) query)
  else none

theorem processSources_results (http : Str → HttpResult) (query : Str) :
    ∀ (srcs : List Str) (c : Cache),
      (processSources http query srcs c).1 = srcs.filterMap (resultFor http query c)
  | [], _ => rfl
  | s :: rest, c => by
    rw [List.filterMap_cons]
    by_cases hreg : registered s
    · simp only [processSources, if_pos hreg]
      cases hc : c s with
      | some v =>
        have hcont : contentOf http c s = v := by simp [contentOf, hc]
        simp only [resultFor, if_pos hreg, hcont]
        by_cases he : (find_relevant_sections v query).isEmpty
        · simp [he, processSources_results http query rest c]
        · simp [he, processSources_results http query rest c]
      | none =>
        have hcont : contentOf http c s = (fetch_documentation http s).1 := by
          simp [contentOf, hc]
        have hfun :
            resultFor http query (updC c s (fetch_documentation http s).1) =
              resultFor http query c := by
          funext t
          unfold resultFor
          rw [contentOf_updC http c s hc t]
        simp only [resultFor, if_pos hreg, hcont]
        have hrest :=
          processSources_results http query rest (updC c s (fetch_documentation http s).1)
        rw [hfun] at hrest
        by_cases he : (find_relevant_sections (fetch_documentation http s).1 query).isEmpty
        · simp [he, hrest]
        · simp [he, hrest]
    · simp only [processSources, if_neg hreg]
      have : resultFor http query c s = none := by simp [resultFor, hreg]
      simp [this, processSources_results http query rest c]

theorem processSources_cacheAt (http : Str → HttpResult) (query : Str) :
    ∀ (srcs : List Str) (c : Cache) (t : Str),
      (processSources http query srcs c).2.1 t =
        if t ∈ srcs ∧ registered t then some (contentOf http c t) else c t
  | [], c, t => by simp [processSources]
  | s :: rest, c, t => by
    by_cases hreg : registered s
    · simp only [processSources, if_pos hreg]
      cases hc : c s with
      | some v =>
        have hrec := processSources_cacheAt http query rest c t
        by_cases ht : t = s
        · subst ht
          have hco : contentOf http c t = v := by simp [contentOf, hc]
          by_cases hm : t ∈ rest <;> simp [hrec, hm, hreg, hco, hc, List.mem_cons]
        · by_cases hr : registered t <;> by_cases hm : t ∈ rest <;>
            simp [hrec, hm, ht, hr, List.mem_cons]
      | none =>
        have hrec :=
          processSources_cacheAt http query rest (updC c s (fetch_documentation http s).1) t
        rw [contentOf_updC http c s hc t] at hrec
        by_cases ht : t = s
        · subst ht
          have hco : contentOf http c t = (fetch_documentation http t).1 := by
            simp [contentOf, hc]
          by_cases hm : t ∈ rest <;> simp [hrec, hm, hreg, hco, List.mem_cons, updC]
        · by_cases hr : registered t <;> by_cases hm : t ∈ rest <;>
            simp [hrec, hm, ht, hr, List.mem_cons, updC]
    · simp only [processSources, if_neg hreg]
      rw [processSources_cacheAt http query rest c t]
      by_cases ht : t = s
      · subst ht
        by_cases hm : t ∈ rest <;> simp [hm, hreg, List.mem_cons]
      · by_cases hr : registered t <;> by_cases hm : t ∈ rest <;>
          simp [hm, ht, hr, List.mem_cons]

/-- C4: the cache stores the fetch result — extracted text or error string
alike — on the first miss; a cached source is never fetched again; two
consecutive single-source queries fetch exactly once, the second leaving
the cache unchanged and replying identically. -/
theorem crc_doc_query_cache_behavior (http : Str → HttpResult) (query s : Str) (c : Cache)
    (hreg : registered s) (hq : query ≠ []) :
    (c s = none →
      (crc_doc_query http query (some [s]) c).2.2 = [s] ∧
      (crc_doc_query http query (some [s]) c).2.1 s = some (fetch_documentation http s).1) ∧
    (∀ v, c s = some v →
      (crc_doc_query http query (some [s]) c).2.2 = [] ∧
      (crc_doc_query http query (some [s]) c).2.1 = c) ∧
    ((crc_doc_query http query (some [s])
        ((crc_doc_query http query (some [s]) c).2.1)).2.2 = [] ∧
     (crc_doc_query http query (some [s])
        ((crc_doc_query http query (some [s]) c).2.1)).2.1 =
       (crc_doc_query http query (some [s]) c).2.1 ∧
     (crc_doc_query http query (some [s])
        ((crc_doc_query http query (some [s]) c).2.1)).1 =
       (crc_doc_query http query (some [s]) c).1) := by
  have h21 : ∀ c' : Cache,
      (crc_doc_query http query (some [s]) c').2.1 = (processSources http query [s] c').2.1 :=
    fun c' => congrArg Prod.fst (crc_state http query [s] c' hq)
  have h22 : ∀ c' : Cache,
      (crc_doc_query http query (some [s]) c').2.2 = (processSources http query [s] c').2.2 :=
    fun c' => congrArg Prod.snd (crc_state http query [s] c' hq)
  have hps_hit : ∀ (c' : Cache) (v : Str), c' s = some v →
      processSources http query [s] c' =
        ((if (find_relevant_sections v query).isEmpty then []
          else [(s, urlOf s, find_relevant_sections v query)]), c', []) := by
    intro c' v hv
    simp [processSources, hreg, hv]
  have hps_miss : ∀ c' : Cache, c' s = none →
      processSources http query [s] c' =
        ((if (find_relevant_sections (fetch_documentation http s).1 query).isEmpty then []
          else [(s, urlOf s, find_relevant_sections (fetch_documentation http s).1 query)]),
         updC c' s (fetch_documentation http s).1, [s]) := by
    intro c' hv
    simp [processSources, hreg, hv]
  refine ⟨?_, ?_, ?_⟩
  · intro hmiss
    constructor
    · rw [h22 c, hps_miss c hmiss]
    · rw [h21 c, hps_miss c hmiss]
      simp [updC]
  · intro v hv
    constructor
    · rw [h22 c, hps_hit c v hv]
    · rw [h21 c, hps_hit c v hv]
  · have hc2 : (crc_doc_query http query (some [s]) c).2.1 s = some (contentOf http c s) := by
      rw [h21 c, processSources_cacheAt http query [s] c s]
      simp [hreg]
    refine ⟨?_, ?_, ?_⟩
    · rw [h22 _, hps_hit _ (contentOf http c s) hc2]
    · rw [h21 _, hps_hit _ (contentOf http c s) hc2]
    · rw [crc_reply http query [s] _ hq, crc_reply http query [s] c hq]
      have hres : (processSources http query [s]
            ((crc_doc_query http query (some [s]) c).2.1)).1 =
          (processSources http query [s] c).1 := by
        rw [processSources_results http query [s] _, processSources_results http query [s] c]
        have hco : contentOf http ((crc_doc_query http query (some [s]) c).2.1) s =
            contentOf http c s := by
          simp [contentOf, hc2]
        have : resultFor http query ((crc_doc_query http query (some [s]) c).2.1) s =
            resultFor http query c s := by
          unfold resultFor
          rw [hco]
        rw [List.filterMap_cons, List.filterMap_cons, this]
        cases resultFor http query c s <;> simp
      rw [hres]

/-- A formatted report never coincides with the no-result message: their
first characters differ. -/
theorem formatResponse_ne_noRelMsg (query : Str) (res : List (Str × Str × List Str)) :
    formatResponse query res ≠ noRelMsg query := by
  intro h
  have h1 : (formatResponse query res).head? = some '#' := by
    rw [formatResponse]
    simp only [List.append_assoc]
    rw [List.head?_append_of_ne_nil _ (by decide)]
    decide
  have h2 : (noRelMsg query).head? = some 'N' := by
    rw [noRelMsg]
    simp only [List.append_assoc]
    rw [List.head?_append_of_ne_nil _ (by decide)]
    decide
  rw [h, h2] at h1
  exact absurd h1 (by decide)

/-- C5: the per-source loop processes the requested identifiers in order,
silently skipping unregistered ones and accumulating a result exactly for
the sources whose ranked fragment list is non-empty; the reply is the
no-information message precisely when no source produced a result, in
particular when only unregistered identifiers were requested. -/
theorem crc_doc_query_source_processing (http : Str → HttpResult) (query : Str)
    (sources : List Str) (c : Cache) (hq : query ≠ []) :
    (processSources http query sources c).1 = sources.filterMap (resultFor http query c) ∧
    ((crc_doc_query http query (some sources) c).1 = noRelMsg query ↔
      sources.filterMap (resultFor http query c) = []) ∧
    ((∀ s ∈ sources, ¬ registered s) →
      (crc_doc_query http query (some sources) c).1 = noRelMsg query) := by
  have hres := processSources_results http query sources c
  have hiff : (crc_doc_query http query (some sources) c).1 = noRelMsg query ↔
      sources.filterMap (resultFor http query c) = [] := by
    rw [crc_reply http query sources c hq, hres]
    constructor
    · intro h
      by_cases he : (sources.filterMap (resultFor http query c)).isEmpty
      · simpa [List.isEmpty_iff] using he
      · rw [if_neg he] at h
        exact absurd h (formatResponse_ne_noRelMsg query _)
    · intro h
      rw [h]
      simp
  refine ⟨hres, hiff, ?_⟩
  intro hall
  rw [hiff, List.filterMap_eq_nil_iff]
  intro s hs
  simp [resultFor, hall s hs]

/-- Lowercasing does not change a whitespace character. -/
theorem toLower_of_isWs (ch : Char) (h : isWs ch = true) : ch.toLower = ch := by
  have h2 : ch = ' ' ∨ ch = '\t' ∨ ch = '\r' ∨ ch = '\n' := by
    simpa [isWs, Char.isWhitespace, or_assoc] using h
  rcases h2 with h2 | h2 | h2 | h2 <;> subst h2 <;> decide

theorem splitWsAux_nil_of_allWs :
    ∀ s : Str, (∀ ch ∈ s, isWs ch = true) → splitWsAux [] s = []
  | [], _ => rfl
  | c :: rest, h => by
    have hc : isWs c = true := h c (by simp)
    simp only [splitWsAux, hc, if_true]
    exact splitWsAux_nil_of_allWs rest (fun ch hch => h ch (List.mem_cons_of_mem c hch))

/-- A whitespace-only query yields no query terms. -/
theorem splitWs_lower_nil (query : Str) (hws : ∀ ch ∈ query, isWs ch = true) :
    splitWs (lower query) = [] := by
  apply splitWsAux_nil_of_allWs
  intro ch hch
  rw [lower, List.mem_map] at hch
  obtain ⟨x, hx, rfl⟩ := hch
  rw [toLower_of_isWs x (hws x hx)]
  exact hws x hx

/-- With no query terms every fragment scores zero and the ranker returns
the empty list. -/
theorem find_relevant_sections_nil_of_no_terms (content query : Str)
    (h : splitWs (lower query) = []) : find_relevant_sections content query = [] := by
  simp only [find_relevant_sections, h]
  have hfil : ∀ l : List Str,
      (l.map (fun t => (t, scoreOf [] (lower t)))).filter (fun p => decide (0 < p.2)) = [] := by
    intro l
    rw [List.filter_eq_nil_iff]
    intro p hp
    rw [List.mem_map] at hp
    obtain ⟨t, -, rfl⟩ := hp
    simp [scoreOf]
  rw [hfil]
  rfl

/-- C10: a non-empty whitespace-only query is not short-circuited: the
query splits into zero terms, the ranker returns the empty list on every
content, every requested registered source still ends up cached (fetched
on a miss), and the reply is exactly the no-information message. -/
theorem crc_doc_query_ws_query (http : Str → HttpResult) (query : Str)
    (sources : List Str) (c : Cache) (hq : query ≠ [])
    (hws : ∀ ch ∈ query, isWs ch = true) :
    splitWs (lower query) = [] ∧
    (∀ content, find_relevant_sections content query = []) ∧
    (crc_doc_query http query (some sources) c).1 = noRelMsg query ∧
    (∀ s ∈ sources, registered s →
      (crc_doc_query http query (some sources) c).2.1 s = some (contentOf http c s)) := by
  have hterms := splitWs_lower_nil query hws
  have hrank := fun content => find_relevant_sections_nil_of_no_terms content query hterms
  refine ⟨hterms, hrank, ?_, ?_⟩
  · rw [crc_reply http query sources c hq]
    have hnil : (processSources http query sources c).1 = [] := by
      rw [processSources_results http query sources c, List.filterMap_eq_nil_iff]
      intro s _
      simp [resultFor, hrank]
    simp [hnil]
  · intro s hs hreg
    have h21 : (crc_doc_query http query (some sources) c).2.1 =
        (processSources http query sources c).2.1 :=
      congrArg Prod.fst (crc_state http query sources c hq)
    rw [h21, processSources_cacheAt http query sources c s]
    simp [hs, hreg]

/-- A concrete network oracle: every request fails with status 500. -/
def httpDown : Str → HttpResult := fun _ => HttpResult.status 500

/-- The empty cache. -/
def emptyCache : Cache := fun _ => none

theorem crc_doc_query_cache_behavior_witness :
    (crc_doc_query httpDown (str "vm") (some [str "crc"]) emptyCache).2.2 = [str "crc"] :=
  ((crc_doc_query_cache_behavior httpDown (str "vm") (str "crc") emptyCache
    (by decide) (by decide)).1 rfl).1

theorem crc_doc_query_source_processing_witness :
    (crc_doc_query httpDown (str "podman") (some [str "bogus"]) emptyCache).1 =
      noRelMsg (str "podman") :=
  (crc_doc_query_source_processing httpDown (str "podman") [str "bogus"] emptyCache
    (by decide)).2.2 (by decide)

theorem clear_cache_clears_witness :
    (crc_doc_query httpDown (str "vm") (some [str "crc-blog"])
      (clear_cache emptyCache).2).2.2 = [str "crc-blog"] :=
  (clear_cache_clears emptyCache).2.2 httpDown (str "vm") (str "crc-blog")
    (by decide) (by decide)

theorem crc_doc_query_ws_query_witness :
    (crc_doc_query httpDown (str " ") (some [str "crc-dev"]) emptyCache).1 =
      noRelMsg (str " ") :=
  (crc_doc_query_ws_query httpDown (str " ") [str "crc-dev"] emptyCache
    (by decide) (by decide)).2.2.1
